import Mathlib

/-!
Verification of the streaming chat session engine of `src/js/chat.js`.

Strings are modelled as `List Char` (one entry per Unicode scalar value);
all definitions are shallow embeddings of the correspondingly named
JavaScript functions in `src/js/chat.js`.  Fallible JavaScript operations
(`JSON.parse`, member access on `undefined`/`null`, `localStorage.setItem`)
are modelled with `Option`/`Except`; a `try`/`catch` in the source becomes a
`match` consuming the `Except`.
-/

set_option maxRecDepth 10000

/-- Opening curly brace character (written numerically). -/
def obr : Char := Char.ofNat 123

/-- Closing curly brace character (written numerically). -/
def cbr : Char := Char.ofNat 125

/-- Decimal digit test used by the JSON number grammar. -/
def isDigitC (c : Char) : Bool := '0' ≤ c && c ≤ '9'

/-- JSON insignificant whitespace (exactly space, tab, line feed, carriage
return, as in ECMA-404 / `JSON.parse`). -/
def jsonWs (c : Char) : Bool := c = ' ' || c = '\t' || c = '\n' || c = '\r'

/-- Drop leading JSON whitespace. -/
def skipWs (s : List Char) : List Char := s.dropWhile jsonWs

/-- Value of a hexadecimal digit, `none` for other characters. -/
def hexVal (c : Char) : Option Nat :=
  if '0' ≤ c ∧ c ≤ '9' then some (c.toNat - 48)
  else if 'a' ≤ c ∧ c ≤ 'f' then some (c.toNat - 87)
  else if 'A' ≤ c ∧ c ≤ 'F' then some (c.toNat - 55)
  else none

/-- A JSON number as parsed by `JSON.parse`: sign, integer digits, fraction
digits and signed exponent digits.  The numeric value itself is never needed
by the chat engine (deltas carry strings), so the digit strings are kept. -/
structure JNum where
  neg : Bool
  ip : List Char
  fp : List Char
  en : Bool
  ep : List Char
deriving DecidableEq

/-- JSON values, the result type of `JSON.parse`.  Object members keep
source order (later duplicates win on lookup, as in JavaScript). -/
inductive Json where
  | null : Json
  | bool : Bool → Json
  | num : JNum → Json
  | str : List Char → Json
  | arr : List Json → Json
  | obj : List (List Char × Json) → Json

/-- Prepend a character to the string being accumulated by the string-body
scanner. -/
def consStr (c : Char) (r : Option (List Char × List Char)) :
    Option (List Char × List Char) :=
  match r with
  | none => none
  | some (s, rest) => some (c :: s, rest)

/-- Scan a JSON string body (the opening quote already consumed), handling
the escape sequences of `JSON.parse`.  UTF-16 surrogate pairs written as two
`\uXXXX` escapes are combined; a lone surrogate (which Lean's `Char` cannot
represent, and which no line of this protocol contains) becomes U+FFFD. -/
def pStrBody : Nat → List Char → Option (List Char × List Char)
  | 0, _ => none
  | _, [] => none
  | n+1, c :: cs =>
    if c = '"' then some ([], cs)
    else if c = '\\' then
      match cs with
      | [] => none
      | e :: cs2 =>
        if e = '"' then consStr '"' (pStrBody n cs2)
        else if e = '\\' then consStr '\\' (pStrBody n cs2)
        else if e = '/' then consStr '/' (pStrBody n cs2)
        else if e = 'b' then consStr '\x08' (pStrBody n cs2)
        else if e = 'f' then consStr '\x0c' (pStrBody n cs2)
        else if e = 'n' then consStr '\n' (pStrBody n cs2)
        else if e = 'r' then consStr '\r' (pStrBody n cs2)
        else if e = 't' then consStr '\t' (pStrBody n cs2)
        else if e = 'u' then
          match cs2 with
          | h1 :: h2 :: h3 :: h4 :: cs3 =>
            match hexVal h1, hexVal h2, hexVal h3, hexVal h4 with
            | some a, some b, some d, some g =>
              let code := a*4096 + b*256 + d*16 + g
              if 0xd800 ≤ code ∧ code ≤ 0xdbff then
                match cs3 with
                | '\\' :: 'u' :: k1 :: k2 :: k3 :: k4 :: cs4 =>
                  match hexVal k1, hexVal k2, hexVal k3, hexVal k4 with
                  | some a2, some b2, some d2, some g2 =>
                    let lo := a2*4096 + b2*256 + d2*16 + g2
                    if 0xdc00 ≤ lo ∧ lo ≤ 0xdfff then
                      consStr
                        (Char.ofNat
                          (0x10000 + (code - 0xd800) * 1024 + (lo - 0xdc00)))
                        (pStrBody n cs4)
                    else consStr (Char.ofNat 0xfffd) (pStrBody n cs3)
                  | _, _, _, _ => consStr (Char.ofNat 0xfffd) (pStrBody n cs3)
                | _ => consStr (Char.ofNat 0xfffd) (pStrBody n cs3)
              else if 0xdc00 ≤ code ∧ code ≤ 0xdfff then
                consStr (Char.ofNat 0xfffd) (pStrBody n cs3)
              else consStr (Char.ofNat code) (pStrBody n cs3)
            | _, _, _, _ => none
          | _ => none
        else none
    else if c.toNat < 0x20 then none
    else consStr c (pStrBody n cs)

/-- Longest prefix of decimal digits and the remainder. -/
def takeDigits (s : List Char) : List Char × List Char :=
  (s.takeWhile isDigitC, s.dropWhile isDigitC)

/-- Parse the optional fraction part of a JSON number; `none` signals a
malformed number (a dot with no digit). -/
def pFrac (s : List Char) : Option (List Char × List Char) :=
  match s with
  | '.' :: t =>
    let (ds, r) := takeDigits t
    if ds = [] then none else some (ds, r)
  | _ => some ([], s)

/-- Parse the optional exponent part of a JSON number; `none` signals a
malformed exponent. -/
def pExp (s : List Char) : Option (Bool × List Char × List Char) :=
  match s with
  | 'e' :: t | 'E' :: t =>
    let (en, t2) :=
      match t with
      | '+' :: u => (false, u)
      | '-' :: u => (true, u)
      | _ => (false, t)
    let (ds, r) := takeDigits t2
    if ds = [] then none else some (en, ds, r)
  | _ => some (false, [], s)

/-- Parse a JSON number (grammar of `JSON.parse`: optional minus, `0` or a
nonzero-led digit string, optional fraction, optional exponent). -/
def pNum (s : List Char) : Option (JNum × List Char) :=
  let (neg, s1) :=
    match s with
    | '-' :: t => (true, t)
    | _ => (false, s)
  match s1 with
  | '0' :: t =>
    match pFrac t with
    | none => none
    | some (fp, r1) =>
      match pExp r1 with
      | none => none
      | some (en, ep, r2) => some (⟨neg, ['0'], fp, en, ep⟩, r2)
  | c :: t =>
    if '1' ≤ c ∧ c ≤ '9' then
      let (ds, r0) := takeDigits t
      match pFrac r0 with
      | none => none
      | some (fp, r1) =>
        match pExp r1 with
        | none => none
        | some (en, ep, r2) => some (⟨neg, c :: ds, fp, en, ep⟩, r2)
    else none
  | [] => none

mutual

/-- Parse one JSON value (fuel-indexed recursive descent mirroring
`JSON.parse`). -/
def pVal : Nat → List Char → Option (Json × List Char)
  | 0, _ => none
  | n+1, s =>
    match skipWs s with
    | [] => none
    | c :: cs =>
      if c = '"' then
        match pStrBody (cs.length + 1) cs with
        | some (str, rest) => some (.str str, rest)
        | none => none
      else if c = obr then pObjStart n cs
      else if c = '[' then pArrStart n cs
      else if c = 't' then
        match cs with
        | 'r' :: 'u' :: 'e' :: r => some (.bool true, r)
        | _ => none
      else if c = 'f' then
        match cs with
        | 'a' :: 'l' :: 's' :: 'e' :: r => some (.bool false, r)
        | _ => none
      else if c = 'n' then
        match cs with
        | 'u' :: 'l' :: 'l' :: r => some (.null, r)
        | _ => none
      else
        match pNum (c :: cs) with
        | some (v, r) => some (.num v, r)
        | none => none

/-- Parse the inside of an array, just after `[`. -/
def pArrStart : Nat → List Char → Option (Json × List Char)
  | 0, _ => none
  | n+1, s =>
    match skipWs s with
    | ']' :: r => some (.arr [], r)
    | s' =>
      match pVal n s' with
      | some (v, r) => pArrRest n [v] r
      | none => none

/-- Parse `, value`* `]` accumulating array elements. -/
def pArrRest : Nat → List Json → List Char → Option (Json × List Char)
  | 0, _, _ => none
  | n+1, acc, s =>
    match skipWs s with
    | ',' :: r =>
      match pVal n r with
      | some (v, r2) => pArrRest n (acc ++ [v]) r2
      | none => none
    | ']' :: r => some (.arr acc, r)
    | _ => none

/-- Parse the inside of an object, just after the opening brace. -/
def pObjStart : Nat → List Char → Option (Json × List Char)
  | 0, _ => none
  | n+1, s =>
    match skipWs s with
    | [] => none
    | c :: r =>
      if c = cbr then some (.obj [], r)
      else
        match pMember n (c :: r) with
        | some (kv, r2) => pObjRest n [kv] r2
        | none => none

/-- Parse one `"key" : value` member. -/
def pMember : Nat → List Char → Option ((List Char × Json) × List Char)
  | 0, _ => none
  | n+1, s =>
    match skipWs s with
    | '"' :: cs =>
      match pStrBody (cs.length + 1) cs with
      | some (k, r) =>
        match skipWs r with
        | ':' :: r2 =>
          match pVal n r2 with
          | some (v, r3) => some ((k, v), r3)
          | none => none
        | _ => none
      | none => none
    | _ => none

/-- Parse `, member`* and the closing brace, accumulating members. -/
def pObjRest : Nat → List (List Char × Json) → List Char →
    Option (Json × List Char)
  | 0, _, _ => none
  | n+1, acc, s =>
    match skipWs s with
    | ',' :: r =>
      match pMember n r with
      | some (kv, r2) => pObjRest n (acc ++ [kv]) r2
      | none => none
    | c :: r =>
      if c = cbr then some (.obj acc, r)
      else none
    | [] => none

end

/-- Model of `JSON.parse`: parse one value, allow trailing whitespace only;
`none` models the thrown `SyntaxError`. -/
def jsonParse (s : List Char) : Option Json :=
  match pVal (4 * s.length + 8) s with
  | some (j, rest) => if skipWs rest = [] then some j else none
  | none => none

theorem sanity_jsonParse_true : (jsonParse ("true").toList).isSome = true := by
  decide

theorem sanity_jsonParse_arr :
    (jsonParse ("[1, \"a\\n\"]").toList).isSome = true := by decide

theorem sanity_jsonParse_bad : jsonParse ("[1,").toList = none := rfl

theorem sanity_jsonParse_empty : jsonParse [] = none := rfl

/-- JSON number whose digits are all zero (the only way a parsed JSON number
is the JavaScript-falsy value `0`). -/
def jnZero (n : JNum) : Bool := (n.ip ++ n.fp).all (fun c => c = '0')

/-- JavaScript truthiness of a `JSON.parse` result. -/
def truthy : Json → Bool
  | .null => false
  | .bool b => b
  | .num n => !(jnZero n)
  | .str s => !(s = [] : Bool)
  | .arr _ => true
  | .obj _ => true

/-- Reassemble the source text of a parsed JSON number.  Exact ECMAScript
double-to-string formatting is abstracted to this lexeme; no claim of this
development coerces a numeric delta field to a string. -/
def numLexeme (n : JNum) : List Char :=
  (if n.neg then ['-'] else []) ++ n.ip ++
  (if n.fp = [] then [] else '.' :: n.fp) ++
  (if n.ep = [] then [] else 'e' :: (if n.en then ['-'] else []) ++ n.ep)

mutual

/-- JavaScript `String(·)` coercion of a `JSON.parse` result (used by the
`+` concatenation in `extractContent` when a delta field is not a string). -/
def jsToStr : Json → List Char
  | .null => ("null").toList
  | .bool b => if b then ("true").toList else ("false").toList
  | .num n => numLexeme n
  | .str s => s
  | .arr xs => jsToStrElems xs
  | .obj _ => ("[object Object]").toList

/-- Array-to-string coercion: elements joined by commas, `null` elements
contributing the empty string (JavaScript `Array.prototype.join`). -/
def jsToStrElems : List Json → List Char
  | [] => []
  | [x] => match x with
    | .null => []
    | v => jsToStr v
  | x :: xs =>
    (match x with
     | .null => []
     | v => jsToStr v) ++ ',' :: jsToStrElems xs

end

/-- Property lookup in a parsed object's member list; as in JavaScript the
last duplicate key wins. -/
def jlookup (fs : List (List Char × Json)) (k : List Char) : Option Json :=
  match fs with
  | [] => none
  | (k0, v) :: rest =>
    match jlookup rest k with
    | some r => some r
    | none => if k0 = k then some v else none

/-- Named-property access on a defined, non-null JavaScript value coming
from `JSON.parse`; only plain objects carry the properties the decoder
reads, every other value yields `undefined` (`none`). -/
def jsProp (j : Json) (k : List Char) : Option Json :=
  match j with
  | .obj fs => jlookup fs k
  | _ => none

/-- Named-property access that can throw: `undefined` (`none`) and `null`
receivers raise a `TypeError`, modelled as `Except.error`. -/
def jsGetE (v : Option Json) (k : List Char) : Except Unit (Option Json) :=
  match v with
  | none => .error ()
  | some .null => .error ()
  | some j => .ok (jsProp j k)

/-- Index access `v[0]`: throws on `undefined`/`null`, yields element `0` of
an array, the first character of a string, member `"0"` of an object, and
`undefined` otherwise. -/
def jsIndex0E (v : Option Json) : Except Unit (Option Json) :=
  match v with
  | none => .error ()
  | some .null => .error ()
  | some (.arr xs) => .ok xs.head?
  | some (.str s) => .ok (s.head?.map (fun c => Json.str [c]))
  | some (.obj fs) => .ok (jlookup fs ['0'])
  | some _ => .ok none

/-- Optional-chaining access `v?.k`: yields `undefined` (without throwing)
on `undefined`/`null` receivers. -/
def optChainProp (v : Option Json) (k : List Char) : Option Json :=
  match v with
  | none => none
  | some .null => none
  | some j => jsProp j k

/-- The delta extraction `data.choices[0]?.delta` of
`StreamProcessor.parseSSELine` (src/js/chat.js:189); `Except.error` models
the `TypeError` thrown when `data` or `data.choices` is `null`/`undefined`,
which the surrounding `try`/`catch` swallows. -/
def choicesDelta (d : Json) : Except Unit (Option Json) :=
  match jsGetE (some d) ("choices").toList with
  | .error e => .error e
  | .ok c =>
    match jsIndex0E c with
    | .error e => .error e
    | .ok e => .ok (optChainProp e ("delta").toList)

/-- The expression `delta.content || ''` (and its `reasoning_content`
sibling): a missing or falsy field contributes the empty string, a truthy
field is string-coerced by the `+` concatenation. -/
def jsOrEmpty (v : Option Json) : List Char :=
  match v with
  | none => []
  | some j => if truthy j then jsToStr j else []

/-- Model of `StreamProcessor.extractContent` (src/js/chat.js:204-209): a falsy
`delta` yields the empty string, otherwise the `reasoning_content` field is
concatenated before the `content` field. -/
def extractContent (delta : Option Json) : List Char :=
  match delta with
  | none => []
  | some d =>
    if truthy d then
      jsOrEmpty (jsProp d ("reasoning_content").toList) ++
        jsOrEmpty (jsProp d ("content").toList)
    else []

/-- Whitespace removed by JavaScript `String.prototype.trim` (WhiteSpace
and LineTerminator code points). -/
def jsTrimWs (c : Char) : Bool :=
  c = ' ' || c = '\t' || c = '\n' || c = '\r' || c = '\x0b' || c = '\x0c' ||
  c = Char.ofNat 0xa0 || c = Char.ofNat 0xfeff || c = Char.ofNat 0x1680 ||
  (0x2000 ≤ c.toNat && c.toNat ≤ 0x200a) ||
  c = Char.ofNat 0x2028 || c = Char.ofNat 0x2029 ||
  c = Char.ofNat 0x202f || c = Char.ofNat 0x205f || c = Char.ofNat 0x3000

/-- JavaScript `String.prototype.trim`. -/
def trimJS (s : List Char) : List Char :=
  ((s.dropWhile jsTrimWs).reverse.dropWhile jsTrimWs).reverse

/-- Constant `CHAT_CONFIG.SSE.DATA_PREFIX`. -/
def dataPrefix : List Char := ("data: ").toList

/-- The sentinel termination line
`CHAT_CONFIG.SSE.DATA_PREFIX + CHAT_CONFIG.SSE.DONE_MESSAGE`. -/
def doneLine : List Char := ("data: [DONE]").toList

/-- Boolean prefix test (JavaScript `String.prototype.startsWith`). -/
def startsWithL : List Char → List Char → Bool
  | [], _ => true
  | _, [] => false
  | p :: ps, c :: cs => p = c && startsWithL ps cs

/-- Model of `StreamProcessor.parseSSELine` (src/js/chat.js:179-197): trim the line;
blank lines, the sentinel line and lines without the data prefix yield no
content; otherwise the payload after the prefix is parsed as JSON and the
delta extracted, every failure being caught and yielding the empty
string. -/
def parseSSELine (line : List Char) : List Char :=
  let t := trimJS line
  if t = [] then []
  else if t = doneLine then []
  else if startsWithL dataPrefix t then
    match jsonParse (t.drop dataPrefix.length) with
    | none => []
    | some d =>
      match choicesDelta d with
      | .error _ => []
      | .ok delta => extractContent delta
  else []

/-- Line-break test of the first-chunk normalization regex `/^[\r\n]+/`. -/
def isLB (c : Char) : Bool := c = '\r' || c = '\n'

/-- JavaScript `String.prototype.split('\n')`: always a non-empty list, the
last element being the text after the final newline. -/
def splitNL : List Char → List (List Char)
  | [] => [[]]
  | c :: cs =>
    if c = '\n' then [] :: splitNL cs
    else
      match splitNL cs with
      | [] => [[c]]
      | r :: rs => (c :: r) :: rs

/-- Last element of a split, `[]` for the (impossible) empty list; this is
the `lines.pop()` kept as the carryover buffer. -/
def lastD : List (List Char) → List Char
  | [] => []
  | [x] => x
  | _ :: xs => lastD xs

/-- Loop state of `StreamProcessor.processStream` (src/js/chat.js:130-172):
the carryover `buffer`, the accumulated `fullResponse`, the
`isFirstContent` flag, and the list of values handed to `onChunk`. -/
structure PSt where
  buffer : List Char
  resp : List Char
  first : Bool
  events : List (List Char)
deriving DecidableEq

/-- Concatenated content of a group of complete lines (the inner `for` loop
accumulating `chunkContent`). -/
def lineContent (g : List (List Char)) : List Char :=
  (g.map parseSSELine).flatten

/-- One iteration of the `processStream` read loop on a decoded text chunk:
append to the buffer, split on newlines, keep the unterminated tail, parse
the complete lines, and if the chunk produced content, strip leading line
breaks when it is the first content and emit the running total. -/
def stepChunk (st : PSt) (chunk : List Char) : PSt :=
  let parts := splitNL (st.buffer ++ chunk)
  let complete := parts.dropLast
  let buf' := lastD parts
  let content := lineContent complete
  if content = [] then ⟨buf', st.resp, st.first, st.events⟩
  else
    let content' := if st.first then content.dropWhile isLB else content
    ⟨buf', st.resp ++ content', false, st.events ++ [st.resp ++ content']⟩

/-- Run the read loop over a list of chunks.  The underlying byte-level
`TextDecoder` (which is itself chunk-boundary invariant) is abstracted:
chunks are the decoded text pieces. -/
def runChunks (st : PSt) : List (List Char) → PSt
  | [] => st
  | c :: cs => runChunks (stepChunk st c) cs

/-- Initial `processStream` state. -/
def initSt : PSt := ⟨[], [], true, []⟩

/-- Final accumulated text of `StreamProcessor.processStream`, the value
passed to `onComplete` when the reader reports `done` (at which point the
loop breaks and the remaining buffer is dropped). -/
def processStream (chunks : List (List Char)) : List Char :=
  (runChunks initSt chunks).resp

/-- The sequence of running totals passed to `onChunk` over a stream. -/
def streamEvents (chunks : List (List Char)) : List (List Char) :=
  (runChunks initSt chunks).events

theorem sanity_parseSSELine_hi :
    parseSSELine
      (("data: \x7b\"choices\":[\x7b\"delta\":\x7b\"content\":\"hi\"\x7d\x7d]\x7d").toList)
      = ("hi").toList := rfl

theorem sanity_parseSSELine_done : parseSSELine doneLine = [] := rfl

theorem sanity_parseSSELine_reasoning :
    parseSSELine
      (("data: \x7b\"choices\":[\x7b\"delta\":\x7b\"content\":\"world\",\"reasoning_content\":\"thinking... \"\x7d\x7d]\x7d").toList)
      = ("thinking... world").toList := rfl

theorem sanity_processStream_hi :
    processStream
      [("data: \x7b\"choices\":[\x7b\"delta\":\x7b\"content\":\"hi\"\x7d\x7d]\x7d\n").toList]
      = ("hi").toList := rfl

theorem sanity_processStream_unterminated :
    processStream
      [("data: \x7b\"choices\":[\x7b\"delta\":\x7b\"content\":\"hi\"\x7d\x7d]\x7d").toList]
      = [] := rfl

/-- Message roles of the chat data model. -/
inductive Role where
  | system : Role
  | user : Role
  | assistant : Role
deriving DecidableEq

/-- The role strings stored and transmitted by the source. -/
def roleStr : Role → List Char
  | .system => ("system").toList
  | .user => ("user").toList
  | .assistant => ("assistant").toList

/-- A chat message `\x7b role, content \x7d`. -/
structure Msg where
  role : Role
  content : List Char
deriving DecidableEq

/-- Constant `CHAT_CONFIG.STORAGE_KEYS.API_KEY`. -/
def apiKeyKey : List Char := ("arkApiKey").toList

/-- Constant `CHAT_CONFIG.STORAGE_KEYS.CHAT_HISTORY`. -/
def chatKey : List Char := ("chatHistory").toList

/-- Constant `CHAT_CONFIG.API.SYSTEM_PROMPT`. -/
def sysPrompt : List Char := ("你是 AI 人工智能助手。").toList

/-- Model of the browser `localStorage`: a key/value list plus a flag
saying whether `setItem` fails (quota/privacy errors); reads and removals
do not fail. -/
structure LocalStorage where
  entries : List (List Char × List Char)
  setFails : Bool
deriving DecidableEq

/-- Model of `localStorage.getItem`. -/
def lsGet (ls : LocalStorage) (k : List Char) : Option (List Char) :=
  match ls.entries.find? (fun p => p.1 = k) with
  | some p => some p.2
  | none => none

/-- Replace the binding of a key, or append it. -/
def setAssoc (k v : List Char) :
    List (List Char × List Char) → List (List Char × List Char)
  | [] => [(k, v)]
  | p :: rest => if p.1 = k then (k, v) :: rest else p :: setAssoc k v rest

/-- Model of `localStorage.setItem`; `none` models the thrown storage error. -/
def lsSet (ls : LocalStorage) (k v : List Char) : Option LocalStorage :=
  if ls.setFails then none
  else some ⟨setAssoc k v ls.entries, ls.setFails⟩

/-- Remove the binding of a key. -/
def eraseAssoc (k : List Char) :
    List (List Char × List Char) → List (List Char × List Char)
  | [] => []
  | p :: rest => if p.1 = k then eraseAssoc k rest else p :: eraseAssoc k rest

/-- Model of `localStorage.removeItem`. -/
def lsRemove (ls : LocalStorage) (k : List Char) : LocalStorage :=
  ⟨eraseAssoc k ls.entries, ls.setFails⟩

/-- Hexadecimal digit characters (lowercase, as produced by
`JSON.stringify` control-character escapes). -/
def hexDigit (n : Nat) : Char :=
  match n with
  | 0 => '0' | 1 => '1' | 2 => '2' | 3 => '3' | 4 => '4'
  | 5 => '5' | 6 => '6' | 7 => '7' | 8 => '8' | 9 => '9'
  | 10 => 'a' | 11 => 'b' | 12 => 'c' | 13 => 'd' | 14 => 'e'
  | _ => 'f'

/-- Escaping of one string character as done by `JSON.stringify`. -/
def escJsonChar (c : Char) : List Char :=
  if c = '"' then ['\\', '"']
  else if c = '\\' then ['\\', '\\']
  else if c = '\n' then ['\\', 'n']
  else if c = '\r' then ['\\', 'r']
  else if c = '\t' then ['\\', 't']
  else if c = '\x08' then ['\\', 'b']
  else if c = '\x0c' then ['\\', 'f']
  else if c.toNat < 0x20 then
    ['\\', 'u', '0', '0', hexDigit (c.toNat / 16), hexDigit (c.toNat % 16)]
  else [c]

/-- Rendering of a string value as done by `JSON.stringify`. -/
def quoteJson (s : List Char) : List Char :=
  '"' :: (s.map escJsonChar).flatten ++ ['"']

/-- Serialization by `JSON.stringify` of one history message object (keys in the insertion
order `role`, `content` used by the source). -/
def serializeMsg (m : Msg) : List Char :=
  obr :: quoteJson (("role").toList) ++ ':' :: quoteJson (roleStr m.role) ++
    ',' :: quoteJson (("content").toList) ++ ':' :: quoteJson m.content ++
    [cbr]

/-- Comma-join of serialized elements. -/
def joinComma : List (List Char) → List Char
  | [] => []
  | [x] => x
  | x :: xs => x ++ ',' :: joinComma xs

/-- Serialization by `JSON.stringify` of the history array. -/
def serializeHistory (h : List Msg) : List Char :=
  '[' :: joinComma (h.map serializeMsg) ++ [']']

/-- Model of `StorageManager.getApiKey` (src/js/chat.js:43-50); the `catch` branch
returning `null` is unreachable in this model since reads do not fail. -/
def getApiKey (ls : LocalStorage) : Option (List Char) :=
  lsGet ls apiKeyKey

/-- Error message thrown by `StorageManager.saveApiKey`. -/
def saveKeyErr : List Char := ("无法保存 API Key").toList

/-- Model of `StorageManager.saveApiKey` (src/js/chat.js:56-63): a storage failure
is logged and re-thrown as `Error('无法保存 API Key')`. -/
def saveApiKey (ls : LocalStorage) (k : List Char) :
    Except (List Char) LocalStorage :=
  match lsSet ls apiKeyKey k with
  | some ls' => .ok ls'
  | none => .error saveKeyErr

/-- Model of `StorageManager.removeApiKey` (src/js/chat.js:68-74). -/
def removeApiKey (ls : LocalStorage) : LocalStorage :=
  lsRemove ls apiKeyKey

/-- Model of `StorageManager.clearHistory` (src/js/chat.js:107-113). -/
def clearHistory (ls : LocalStorage) : LocalStorage :=
  lsRemove ls chatKey

/-- Model of `StorageManager.getHistory` (src/js/chat.js:80-90): absent or
empty-string records yield `[]` (the stored value is tested for
truthiness before parsing); a `JSON.parse` failure is caught, the record
cleared, and `[]` returned. -/
def getHistory (ls : LocalStorage) : Json × LocalStorage :=
  match lsGet ls chatKey with
  | none => (Json.arr [], ls)
  | some s =>
    if s = [] then (Json.arr [], ls)
    else
      match jsonParse s with
      | some j => (j, ls)
      | none => (Json.arr [], clearHistory ls)

/-- Model of `StorageManager.saveHistory` (src/js/chat.js:96-102): a storage
failure is logged and swallowed, leaving the store unchanged. -/
def saveHistory (ls : LocalStorage) (h : List Msg) : LocalStorage :=
  match lsSet ls chatKey (serializeHistory h) with
  | some ls' => ls'
  | none => ls

/-- Toast messages of `ChatController.handleSaveApiKey`. -/
inductive ToastMsg where
  | saved : ToastMsg
  | saveFailed : ToastMsg
  | invalidKey : ToastMsg
deriving DecidableEq

/-- Model of `ChatController.handleSaveApiKey` (src/js/chat.js:699-713): trims the
input, saves a non-empty key and catches the `saveApiKey` error with a
failure toast. -/
def handleSaveApiKey (ls : LocalStorage) (input : List Char) :
    LocalStorage × ToastMsg :=
  let key := trimJS input
  if key = [] then (ls, .invalidKey)
  else
    match saveApiKey ls key with
    | .ok ls' => (ls', .saved)
    | .error _ => (ls, .saveFailed)

/-- An HTTP exchange outcome handed to `ChatAPIClient.sendMessage`: the
response status and, for a success, the decoded text chunks of the
streaming body. -/
structure Resp where
  status : Nat
  chunks : List (List Char)
deriving DecidableEq

/-- Test `response.ok`: status in the 2xx range. -/
def respOk (s : Nat) : Bool := 200 ≤ s && s ≤ 299

/-- The `'401'` error message. -/
def err401 : List Char := ("401").toList

/-- Model of `ChatAPIClient.sendMessage` (src/js/chat.js:520-546): issues the
request (body `model`/`messages`/`stream`/`thinking`, bearer
authorization) and, on a non-ok response, throws `'401'` for status 401
and `'API Error: <status>'` otherwise; on success yields the body
reader. -/
def sendMessage (r : Resp) : Except (List Char) (List (List Char)) :=
  if respOk r.status then .ok r.chunks
  else if r.status = 401 then .error err401
  else .error (("API Error: ").toList ++ Nat.toDigits 10 r.status)

/-- The `'No API key found'` error message. -/
def noKeyMsg : List Char := ("No API key found").toList

/-- Caller-visible outcome of one `handleSendMessage` run: the empty-input
early return, normal completion, the 401 branch of the `catch` (error
rendering plus credential purge and re-authentication view), or the
generic error branch carrying the caught message. -/
inductive Outcome where
  | emptyInput : Outcome
  | completed : Outcome
  | authFailed : Outcome
  | genericError : List Char → Outcome
deriving DecidableEq

/-- Observable result of `ChatController.handleSendMessage`: the final
in-memory history, the final storage, the outcome, the message list handed
to the transport (`none` when no request was issued), and the successive
history values passed to `StorageManager.saveHistory`. -/
structure SendResult where
  history : List Msg
  storage : LocalStorage
  outcome : Outcome
  sent : Option (List Msg)
  savedHistories : List (List Msg)
deriving DecidableEq

/-- Controller state read and mutated by `handleSendMessage`: the
in-memory `chatHistory` and the backing storage. -/
structure CtrlState where
  history : List Msg
  storage : LocalStorage
deriving DecidableEq

/-- Model of `ChatController.handleSendMessage` (src/js/chat.js:762-826): trim the
input and return on empty; push the user message and persist; read the
key (throwing `'No API key found'` when absent or empty, a generic
error); send the request; on success stream the response and in
`onComplete` push the assistant message and persist; in the `catch`,
`'401'` purges the stored key and shows the re-authentication view while
any other message is rendered as a generic error.  The function consults
no in-flight-request state: its behaviour is a function of exactly these
arguments. -/
def handleSendMessage (st : CtrlState) (input : List Char) (resp : Resp) :
    SendResult :=
  let content := trimJS input
  if content = [] then ⟨st.history, st.storage, .emptyInput, none, []⟩
  else
    let h1 := st.history ++ [⟨.user, content⟩]
    let s1 := saveHistory st.storage h1
    match getApiKey s1 with
    | none => ⟨h1, s1, .genericError noKeyMsg, none, [h1]⟩
    | some k =>
      if k = [] then ⟨h1, s1, .genericError noKeyMsg, none, [h1]⟩
      else
        let messages := ⟨.system, sysPrompt⟩ :: h1
        match sendMessage resp with
        | .error e =>
          if e = err401 then
            ⟨h1, removeApiKey s1, .authFailed, some messages, [h1]⟩
          else ⟨h1, s1, .genericError e, some messages, [h1]⟩
        | .ok chunks =>
          let full := processStream chunks
          let h2 := h1 ++ [⟨.assistant, full⟩]
          let s2 := saveHistory s1 h2
          ⟨h2, s2, .completed, some messages, [h1, h2]⟩

/-- Merge a carryover prefix into the first part of a split. -/
def consHead (x : List Char) : List (List Char) → List (List Char)
  | [] => [x]
  | h :: t => (x ++ h) :: t

theorem splitNL_ne_nil (s : List Char) : splitNL s ≠ [] := by
  induction s with
  | nil => simp [splitNL]
  | cons c cs ih =>
    simp only [splitNL]
    split
    · simp
    · match h : splitNL cs with
      | [] => simp
      | r :: rs => simp

theorem noNL_splitNL (s : List Char) (h : ∀ c ∈ s, c ≠ '\n') :
    splitNL s = [s] := by
  induction s with
  | nil => simp [splitNL]
  | cons c cs ih =>
    have hc : c ≠ '\n' := h c (by simp)
    have ih' : splitNL cs = [cs] := ih (fun x hx => h x (by simp [hx]))
    simp [splitNL, hc, ih']

theorem lastD_cons (x : List Char) (xs : List (List Char)) (h : xs ≠ []) :
    lastD (x :: xs) = lastD xs := by
  match xs with
  | y :: ys => rfl

theorem splitNL_cons_nl (cs : List Char) :
    splitNL ('\n' :: cs) = [] :: splitNL cs := by
  simp [splitNL]

theorem splitNL_cons_other (c : Char) (cs : List Char) (hc : c ≠ '\n')
    (r : List Char) (rs : List (List Char)) (h : splitNL cs = r :: rs) :
    splitNL (c :: cs) = (c :: r) :: rs := by
  simp [splitNL, hc, h]

theorem lastD_splitNL_noNL (s : List Char) :
    ∀ c ∈ lastD (splitNL s), c ≠ '\n' := by
  induction s with
  | nil => simp [splitNL, lastD]
  | cons c cs ih =>
    by_cases hc : c = '\n'
    · subst hc
      rw [splitNL_cons_nl, lastD_cons _ _ (splitNL_ne_nil cs)]
      exact ih
    · match h : splitNL cs with
      | [] => exact absurd h (splitNL_ne_nil cs)
      | r :: rs =>
        rw [splitNL_cons_other c cs hc r rs h]
        rw [h] at ih
        match rs with
        | [] =>
          intro x hx
          rcases List.mem_cons.mp hx with h1 | h2
          · subst h1; exact hc
          · exact ih x h2
        | q :: qs =>
          rw [lastD_cons _ _ (by simp)]
          rw [lastD_cons _ _ (by simp)] at ih
          exact ih

theorem splitNL_append (a b : List Char) :
    splitNL (a ++ b) =
      (splitNL a).dropLast ++ consHead (lastD (splitNL a)) (splitNL b) := by
  induction a with
  | nil =>
    match h : splitNL b with
    | [] => exact absurd h (splitNL_ne_nil b)
    | r :: rs => simp [splitNL, lastD, consHead, h]
  | cons c cs ih =>
    match h : splitNL cs with
    | [] => exact absurd h (splitNL_ne_nil cs)
    | r :: rs =>
      by_cases hc : c = '\n'
      · subst hc
        rw [List.cons_append, splitNL_cons_nl, splitNL_cons_nl, ih, h]
        rw [List.dropLast_cons₂, lastD_cons [] (r :: rs) (by simp)]
        simp
      · match rs with
        | [] =>
          match hb : splitNL b with
          | [] => exact absurd hb (splitNL_ne_nil b)
          | p :: ps =>
            have h1 : splitNL (cs ++ b) = (r ++ p) :: ps := by
              rw [ih, h, hb]; simp [lastD, consHead]
            rw [List.cons_append,
              splitNL_cons_other c (cs ++ b) hc (r ++ p) ps h1,
              splitNL_cons_other c cs hc r [] h]
            simp [lastD, consHead, hb]
        | q :: qs =>
          have h1 : splitNL (cs ++ b) =
              r :: ((q :: qs).dropLast ++
                consHead (lastD (q :: qs)) (splitNL b)) := by
            rw [ih, h, List.dropLast_cons₂, lastD_cons r (q :: qs) (by simp)]
            simp
          rw [List.cons_append,
            splitNL_cons_other c (cs ++ b) hc _ _ h1,
            splitNL_cons_other c cs hc r (q :: qs) h]
          rw [List.dropLast_cons₂, lastD_cons (c :: r) (q :: qs) (by simp)]
          simp

theorem consHead_ne_nil (x : List Char) (ys : List (List Char)) :
    consHead x ys ≠ [] := by
  match ys with
  | [] => simp [consHead]
  | y :: t => simp [consHead]

/-- The groups of complete lines produced by the successive chunks, given
the incoming carryover buffer: the decomposition the read loop of
`processStream` induces on the line sequence. -/
def lineGroups (b : List Char) : List (List Char) → List (List (List Char))
  | [] => []
  | c :: cs =>
    (splitNL (b ++ c)).dropLast ::
      lineGroups (lastD (splitNL (b ++ c))) cs

/-- Accumulation of per-chunk contents, stripping leading line breaks from
the first non-empty one exactly as the `isFirstContent` branch does. -/
def stripFold : Bool → List (List Char) → List Char
  | _, [] => []
  | first, g :: gs =>
    if g = [] then stripFold first gs
    else (if first then g.dropWhile isLB else g) ++ stripFold false gs

theorem runChunks_resp (cs : List (List Char)) :
    ∀ (b r : List Char) (f : Bool) (ev : List (List Char)),
    (runChunks ⟨b, r, f, ev⟩ cs).resp =
      r ++ stripFold f ((lineGroups b cs).map lineContent) := by
  induction cs with
  | nil => intro b r f ev; simp [runChunks, lineGroups, stripFold]
  | cons c cs ih =>
    intro b r f ev
    simp only [runChunks, lineGroups, List.map_cons]
    by_cases hcont : lineContent ((splitNL (b ++ c)).dropLast) = []
    · rw [show stepChunk ⟨b, r, f, ev⟩ c =
        ⟨lastD (splitNL (b ++ c)), r, f, ev⟩ from by
          simp [stepChunk, hcont]]
      rw [ih]
      simp [stripFold, hcont]
    · rw [show stepChunk ⟨b, r, f, ev⟩ c =
        ⟨lastD (splitNL (b ++ c)),
          r ++ (if f then
            (lineContent ((splitNL (b ++ c)).dropLast)).dropWhile isLB
            else lineContent ((splitNL (b ++ c)).dropLast)), false,
          ev ++ [r ++ (if f then
            (lineContent ((splitNL (b ++ c)).dropLast)).dropWhile isLB
            else lineContent ((splitNL (b ++ c)).dropLast))]⟩ from by
          simp [stepChunk, hcont]]
      rw [ih]
      simp [stripFold, hcont, List.append_assoc]

theorem lineGroups_flatten (cs : List (List Char)) :
    ∀ b : List Char, (∀ c ∈ b, c ≠ '\n') →
    (lineGroups b cs).flatten = (splitNL (b ++ cs.flatten)).dropLast := by
  induction cs with
  | nil =>
    intro b hb
    simp [lineGroups, noNL_splitNL b hb]
  | cons c cs ih =>
    intro b hb
    simp only [lineGroups, List.flatten_cons, List.flatten_nil]
    rw [ih (lastD (splitNL (b ++ c))) (lastD_splitNL_noNL (b ++ c))]
    rw [← List.append_assoc]
    rw [splitNL_append (b ++ c) cs.flatten]
    rw [List.dropLast_append_of_ne_nil _
      (consHead_ne_nil (lastD (splitNL (b ++ c))) (splitNL cs.flatten))]
    rw [splitNL_append (lastD (splitNL (b ++ c))) cs.flatten]
    rw [noNL_splitNL (lastD (splitNL (b ++ c))) (lastD_splitNL_noNL (b ++ c))]
    simp [lastD]

theorem stripFold_false (gs : List (List Char)) :
    stripFold false gs = gs.flatten := by
  induction gs with
  | nil => simp [stripFold]
  | cons g gs ih =>
    by_cases h : g = [] <;> simp [stripFold, h, ih]

theorem dropWhile_append_not_all (p : Char → Bool) (g t : List Char)
    (h : ∃ c ∈ g, p c = false) :
    (g ++ t).dropWhile p = g.dropWhile p ++ t := by
  induction g with
  | nil => simp at h
  | cons c g ih =>
    rcases h with ⟨x, hx, hpx⟩
    by_cases hc : p c = true
    · rcases List.mem_cons.mp hx with h1 | h2
      · rw [h1] at hpx; rw [hpx] at hc; cases hc
      · simp only [List.cons_append, List.dropWhile_cons, hc, if_pos rfl]
        exact ih ⟨x, h2, hpx⟩
    · simp [List.dropWhile_cons, hc]

theorem stripFold_true (gs : List (List Char))
    (h : ∀ g ∈ gs, g ≠ [] → ∃ c ∈ g, isLB c = false) :
    stripFold true gs = gs.flatten.dropWhile isLB := by
  induction gs with
  | nil => simp [stripFold]
  | cons g gs ih =>
    by_cases hg : g = []
    · subst hg
      simp only [stripFold, if_pos rfl, List.flatten_cons, List.nil_append]
      exact ih (fun g' hg' => h g' (by simp [hg']))
    · have hex := h g (by simp) hg
      simp only [stripFold, if_neg hg, if_pos rfl, List.flatten_cons]
      rw [stripFold_false, dropWhile_append_not_all isLB g gs.flatten hex]
      simp

theorem flatten_map_lineContent (gs : List (List (List Char))) :
    ((gs.map lineContent).flatten) = lineContent gs.flatten := by
  induction gs with
  | nil => rfl
  | cons g gs ih =>
    simp [lineContent, List.flatten_cons, List.map_append, ih,
      List.flatten_append]

theorem content_has_nonLB (S : List Char)
    (H : ∀ l ∈ (splitNL S).dropLast, parseSSELine l ≠ [] →
      ∃ c ∈ parseSSELine l, isLB c = false)
    (g : List (List Char)) (hg : ∀ l ∈ g, l ∈ (splitNL S).dropLast)
    (hne : lineContent g ≠ []) : ∃ c ∈ lineContent g, isLB c = false := by
  have hex : ∃ l ∈ g, parseSSELine l ≠ [] := by
    by_contra hall
    push_neg at hall
    apply hne
    unfold lineContent
    rw [List.flatten_eq_nil_iff]
    intro x hx
    rcases List.mem_map.mp hx with ⟨l, hl, rfl⟩
    exact hall l hl
  rcases hex with ⟨l, hl, hne'⟩
  rcases H l (hg l hl) hne' with ⟨c, hc, hlb⟩
  refine ⟨c, ?_, hlb⟩
  unfold lineContent
  exact List.mem_flatten.mpr ⟨parseSSELine l, List.mem_map_of_mem _ hl, hc⟩

theorem processStream_stripFold (cs : List (List Char)) :
    processStream cs = stripFold true ((lineGroups [] cs).map lineContent) := by
  unfold processStream initSt
  rw [runChunks_resp]
  simp

/-- C1 (amended): chunk-boundary invariance of the decoder holds for every
stream whose non-empty fragments each contain a character other than a line
break.  (The first-chunk normalization strips leading line breaks from the
first non-empty per-chunk content, so a stream whose first fragments are
pure line breaks can decode differently under different partitions; see the
counterexample.) -/
theorem c1_chunk_invariance_amended (cs : List (List Char))
    (H : ∀ l ∈ (splitNL cs.flatten).dropLast, parseSSELine l ≠ [] →
      ∃ c ∈ parseSSELine l, isLB c = false) :
    processStream cs = processStream [cs.flatten] := by
  have hflat : (lineGroups [] cs).flatten = (splitNL cs.flatten).dropLast := by
    have h := lineGroups_flatten cs [] (by simp)
    simpa using h
  have hcond : ∀ gc ∈ (lineGroups [] cs).map lineContent, gc ≠ [] →
      ∃ c ∈ gc, isLB c = false := by
    intro gc hgc hne
    rcases List.mem_map.mp hgc with ⟨g, hgmem, rfl⟩
    apply content_has_nonLB cs.flatten H g _ hne
    intro l hl
    rw [← hflat]
    exact List.mem_flatten.mpr ⟨g, hgmem, hl⟩
  rw [processStream_stripFold cs, stripFold_true _ hcond,
    flatten_map_lineContent, hflat]
  rw [processStream_stripFold [cs.flatten]]
  have hsingle : lineGroups [] [cs.flatten] =
      [(splitNL cs.flatten).dropLast] := by
    simp [lineGroups]
  rw [hsingle]
  by_cases hC : lineContent ((splitNL cs.flatten).dropLast) = []
  · simp [stripFold, hC]
  · rw [stripFold_true _ ?_]
    · simp
    · intro g hg hne
      rw [List.mem_map] at hg
      rcases hg with ⟨g0, hg0, rfl⟩
      rw [List.mem_singleton] at hg0
      subst hg0
      exact content_has_nonLB cs.flatten H _ (fun l hl => hl) hne

/-- First SSE chunk of the C1 counterexample: one complete data line whose
delta content is a single line feed. -/
def c1ChunkA : List Char :=
  ("data: \x7b\"choices\":[\x7b\"delta\":\x7b\"content\":\"\\n\"\x7d\x7d]\x7d\n").toList

/-- Second SSE chunk of the C1 counterexample: one complete data line whose
delta content is a line feed followed by `a`. -/
def c1ChunkB : List Char :=
  ("data: \x7b\"choices\":[\x7b\"delta\":\x7b\"content\":\"\\na\"\x7d\x7d]\x7d\n").toList

/-- C1 (counterexample): the two-chunk partition of this well-formed stream
decodes to a final text different from decoding it as one chunk — the
first-chunk normalization consumes the whole first chunk's content (a lone
line feed), so the second chunk's leading line feed survives, while the
single-chunk run strips both. -/
theorem c1_counterexample :
    ([c1ChunkA, c1ChunkB] : List (List Char)).flatten = c1ChunkA ++ c1ChunkB
    ∧ parseSSELine (c1ChunkA.dropLast) = ('\n' :: [])
    ∧ parseSSELine (c1ChunkB.dropLast) = ('\n' :: 'a' :: [])
    ∧ processStream [c1ChunkA ++ c1ChunkB] = ('a' :: [])
    ∧ processStream [c1ChunkA, c1ChunkB] = ('\n' :: 'a' :: [])
    ∧ processStream [c1ChunkA ++ c1ChunkB] ≠ processStream [c1ChunkA, c1ChunkB] := by
  refine ⟨by simp, rfl, rfl, rfl, rfl, ?_⟩
  rw [show processStream [c1ChunkA ++ c1ChunkB] = ('a' :: []) from rfl,
    show processStream [c1ChunkA, c1ChunkB] = ('\n' :: 'a' :: []) from rfl]
  decide

/-- C1 chunk with content `A`. -/
def c1OkA : List Char :=
  ("data: \x7b\"choices\":[\x7b\"delta\":\x7b\"content\":\"A\"\x7d\x7d]\x7d\n").toList

/-- C1 chunk with content `B`. -/
def c1OkB : List Char :=
  ("data: \x7b\"choices\":[\x7b\"delta\":\x7b\"content\":\"B\"\x7d\x7d]\x7d\n").toList

theorem c1_witness :
    processStream [c1OkA, c1OkB] =
      processStream [([c1OkA, c1OkB] : List (List Char)).flatten] :=
  c1_chunk_invariance_amended [c1OkA, c1OkB] (by decide)

theorem runChunks_append (cs ds : List (List Char)) (st : PSt) :
    runChunks st (cs ++ ds) = runChunks (runChunks st cs) ds := by
  induction cs generalizing st with
  | nil => rfl
  | cons c cs ih => simp [runChunks, ih]

theorem stepChunk_buffer (st : PSt) (c : List Char) :
    (stepChunk st c).buffer = lastD (splitNL (st.buffer ++ c)) := by
  unfold stepChunk
  by_cases h : lineContent ((splitNL (st.buffer ++ c)).dropLast) = [] <;>
    simp [h]

theorem runChunks_buffer_noNL (cs : List (List Char)) :
    ∀ st : PSt, (∀ c ∈ st.buffer, c ≠ '\n') →
    ∀ c ∈ (runChunks st cs).buffer, c ≠ '\n' := by
  induction cs with
  | nil => intro st h; exact h
  | cons c cs ih =>
    intro st _
    apply ih
    rw [stepChunk_buffer]
    exact lastD_splitNL_noNL (st.buffer ++ c)

theorem stepChunk_noNL (st : PSt) (t : List Char)
    (hb : ∀ c ∈ st.buffer, c ≠ '\n') (ht : ∀ c ∈ t, c ≠ '\n') :
    stepChunk st t = ⟨st.buffer ++ t, st.resp, st.first, st.events⟩ := by
  have hall : ∀ c ∈ st.buffer ++ t, c ≠ '\n' := by
    intro c hc
    rcases List.mem_append.mp hc with h | h
    · exact hb c h
    · exact ht c h
  unfold stepChunk
  rw [noNL_splitNL (st.buffer ++ t) hall]
  simp [lineContent, lastD]

/-- C2 (amended): material still sitting in the carryover buffer — any
trailing chunk material not terminated by a newline — contributes nothing
to the final accumulated text nor to any emitted running total: when the
stream reports completion, `processStream` breaks out of the read loop and
drops the buffer without interpreting it (src/js/chat.js:139,167), so the
final data line is discarded rather than flushed; lines are interpreted
only once their terminating newline has arrived. -/
theorem c2_no_early_interpretation (cs : List (List Char)) (t : List Char)
    (ht : ∀ c ∈ t, c ≠ '\n') :
    processStream (cs ++ [t]) = processStream cs
    ∧ streamEvents (cs ++ [t]) = streamEvents cs := by
  have hb : ∀ c ∈ (runChunks initSt cs).buffer, c ≠ '\n' :=
    runChunks_buffer_noNL cs initSt (by simp [initSt])
  have hstep := stepChunk_noNL (runChunks initSt cs) t hb ht
  unfold processStream streamEvents
  rw [runChunks_append]
  show (runChunks (stepChunk (runChunks initSt cs) t) []).resp = _
    ∧ (runChunks (stepChunk (runChunks initSt cs) t) []).events = _
  rw [hstep]
  exact ⟨rfl, rfl⟩

/-- A complete, well-formed data line with content `hi`, not terminated by
a newline. -/
def c2Line : List Char :=
  ("data: \x7b\"choices\":[\x7b\"delta\":\x7b\"content\":\"hi\"\x7d\x7d]\x7d").toList

/-- C2 (counterexample): the stream ends while the carryover buffer holds
this non-empty, well-formed data line (`parseSSELine` would yield `hi`),
yet the final accumulated text passed to `onComplete` is empty — the
buffered final line is not interpreted. -/
theorem c2_counterexample :
    parseSSELine c2Line = ('h' :: 'i' :: []) ∧ processStream [c2Line] = [] :=
  ⟨rfl, rfl⟩

/-- A complete newline-terminated data line with content `ok`. -/
def c2Full : List Char :=
  ("data: \x7b\"choices\":[\x7b\"delta\":\x7b\"content\":\"ok\"\x7d\x7d]\x7d\n").toList

/-- A newline-free partial data line. -/
def c2Tail : List Char := ("data: \x7b\"choices\"").toList

theorem c2_witness :
    processStream [c2Full, c2Tail] = processStream [c2Full]
    ∧ streamEvents [c2Full, c2Tail] = streamEvents [c2Full] :=
  c2_no_early_interpretation [c2Full] c2Tail (by decide)

theorem jsOrEmpty_str (s : List Char) : jsOrEmpty (some (Json.str s)) = s := by
  by_cases h : s = [] <;> simp [jsOrEmpty, truthy, jsToStr, h]

theorem truthy_str_ite (s : List Char) :
    (if truthy (Json.str s) = true then jsToStr (Json.str s) else []) = s := by
  by_cases h : s = [] <;> simp [truthy, jsToStr, h]

/-- C6: for a delta object whose `reasoning_content` and `content` fields
are each absent or a string, `extractContent` yields the reasoning field
concatenated before the content field, a missing field contributing the
empty string. -/
theorem c6_reasoning_before_content (fs : List (List Char × Json))
    (r c : Option (List Char))
    (hr : jlookup fs (("reasoning_content").toList) = r.map Json.str)
    (hc : jlookup fs (("content").toList) = c.map Json.str) :
    extractContent (some (Json.obj fs)) = r.getD [] ++ c.getD [] := by
  unfold extractContent
  simp only [truthy, if_pos rfl, jsProp, hr, hc]
  cases r <;> cases c <;>
    simp [jsOrEmpty, Option.map, Option.getD, truthy_str_ite]

/-- The delta of the spec's C6 example, fields in its insertion order. -/
def c6Delta : List (List Char × Json) :=
  [(("content").toList, Json.str (("world").toList)),
   (("reasoning_content").toList, Json.str (("thinking... ").toList))]

theorem c6_witness :
    extractContent (some (Json.obj c6Delta)) = ("thinking... world").toList :=
  c6_reasoning_before_content c6Delta
    (some (("thinking... ").toList)) (some (("world").toList)) rfl rfl

theorem trimJS_all_ws (line : List Char)
    (h : ∀ c ∈ line, jsTrimWs c = true) : trimJS line = [] := by
  unfold trimJS
  rw [List.dropWhile_eq_nil_iff.mpr h]
  simp

/-- A valid data line with content `A`. -/
def c7A : List Char :=
  ("data: \x7b\"choices\":[\x7b\"delta\":\x7b\"content\":\"A\"\x7d\x7d]\x7d\n").toList

/-- A data line whose payload is not valid JSON. -/
def c7Bad : List Char := ("data: \x7bmalformed\n").toList

/-- A valid data line with content `B`. -/
def c7B : List Char :=
  ("data: \x7b\"choices\":[\x7b\"delta\":\x7b\"content\":\"B\"\x7d\x7d]\x7d\n").toList

/-- C7: a data line whose payload fails to parse yields no content (the
`JSON.parse` error is caught inside `parseSSELine`); blank lines and the
sentinel line yield no content; and in a stream with a malformed line
between two valid ones, both valid fragments appear, the malformed line
contributes nothing, and the decoder returns normally. -/
theorem c7_malformed_line_resilient :
    (∀ line : List Char, trimJS line = line →
      startsWithL dataPrefix line = true → line ≠ doneLine →
      jsonParse (line.drop dataPrefix.length) = none →
      parseSSELine line = [])
    ∧ (∀ line : List Char, (∀ c ∈ line, jsTrimWs c = true) →
      parseSSELine line = [])
    ∧ parseSSELine doneLine = []
    ∧ processStream [c7A, c7Bad, c7B] = ("AB").toList
    ∧ streamEvents [c7A, c7Bad, c7B] = [("A").toList, ("AB").toList] := by
  refine ⟨?_, ?_, rfl, rfl, rfl⟩
  · intro line htrim hpre hdone hbad
    have hne : line ≠ [] := by
      intro h
      subst h
      rw [show startsWithL dataPrefix [] = false from rfl] at hpre
      cases hpre
    unfold parseSSELine
    simp only [htrim, if_neg hne, if_neg hdone, hpre, if_pos, hbad]
  · intro line hws
    unfold parseSSELine
    simp [trimJS_all_ws line hws]

theorem c7_witness :
    parseSSELine (("data: \x7boops").toList) = []
    ∧ parseSSELine ([' ', '\t']) = [] :=
  ⟨c7_malformed_line_resilient.1 (("data: \x7boops").toList) rfl rfl
      (by decide) rfl,
   c7_malformed_line_resilient.2.1 [' ', '\t'] (by decide)⟩

/-- C10: a complete `data: ` line whose payload is syntactically valid
JSON but lacks the expected structure — the lookup `choices[0]?.delta`
yields `undefined`, or throws because `choices` is missing (the `catch`
swallows the `TypeError`) — produces no fragment; `parseSSELine` is a
total function, so no exception escapes the decoder. -/
theorem c10_unexpected_shape_total (line : List Char) (j : Json)
    (htrim : trimJS line = line) (hpre : startsWithL dataPrefix line = true)
    (hdone : line ≠ doneLine)
    (hjson : jsonParse (line.drop dataPrefix.length) = some j)
    (hshape : choicesDelta j = Except.ok none
      ∨ choicesDelta j = Except.error ()) :
    parseSSELine line = [] := by
  have hne : line ≠ [] := by
    intro h
    subst h
    rw [show startsWithL dataPrefix [] = false from rfl] at hpre
    cases hpre
  unfold parseSSELine
  simp only [htrim, if_neg hne, if_neg hdone, hpre, if_pos, hjson]
  rcases hshape with h | h <;> simp [h, extractContent]

theorem c10_witness :
    parseSSELine (("data: \x7b\"choices\":[]\x7d").toList) = [] :=
  c10_unexpected_shape_total (("data: \x7b\"choices\":[]\x7d").toList)
    (Json.obj [(("choices").toList, Json.arr [])])
    rfl rfl (by decide) rfl (Or.inl rfl)

theorem find_erase_self (k : List Char)
    (es : List (List Char × List Char)) :
    (eraseAssoc k es).find? (fun p => p.1 = k) = none := by
  induction es with
  | nil => rfl
  | cons p es ih =>
    by_cases h : p.1 = k
    · simp [eraseAssoc, h, ih]
    · simp [eraseAssoc, h, List.find?_cons, ih]

theorem find_erase_other (k k' : List Char) (hk : k' ≠ k)
    (es : List (List Char × List Char)) :
    (eraseAssoc k es).find? (fun p => p.1 = k') =
      es.find? (fun p => p.1 = k') := by
  have hk2 : ¬ (k = k') := fun hh => hk hh.symm
  induction es with
  | nil => rfl
  | cons p es ih =>
    by_cases h : p.1 = k
    · have h2 : ¬ p.1 = k' := by rw [h]; exact fun hh => hk hh.symm
      simp [eraseAssoc, h, List.find?_cons, h2, ih, hk, hk2]
    · by_cases h2 : p.1 = k'
      · simp [eraseAssoc, h, List.find?_cons, h2, hk, hk2]
      · simp [eraseAssoc, h, List.find?_cons, h2, ih, hk, hk2]

theorem find_set_self (k v : List Char)
    (es : List (List Char × List Char)) :
    (setAssoc k v es).find? (fun p => p.1 = k) = some (k, v) := by
  induction es with
  | nil => simp [setAssoc, List.find?_cons]
  | cons p es ih =>
    by_cases h : p.1 = k
    · simp [setAssoc, h, List.find?_cons]
    · simp [setAssoc, h, List.find?_cons, ih]

theorem find_set_other (k v k' : List Char) (hk : k' ≠ k)
    (es : List (List Char × List Char)) :
    (setAssoc k v es).find? (fun p => p.1 = k') =
      es.find? (fun p => p.1 = k') := by
  induction es with
  | nil =>
    have : ¬ (k = k') := fun hh => hk hh.symm
    simp [setAssoc, List.find?_cons, this]
  | cons p es ih =>
    have h3 : ¬ (k = k') := fun hh => hk hh.symm
    by_cases h : p.1 = k
    · have h2 : ¬ p.1 = k' := by rw [h]; exact fun hh => hk hh.symm
      simp [setAssoc, h, List.find?_cons, h2, h3, hk]
    · by_cases h2 : p.1 = k'
      · simp [setAssoc, h, List.find?_cons, h2, h3, hk]
      · simp [setAssoc, h, List.find?_cons, h2, ih, h3, hk]

theorem lsGet_clearHistory (ls : LocalStorage) :
    lsGet (clearHistory ls) chatKey = none := by
  unfold clearHistory lsRemove lsGet
  simp [find_erase_self]

/-- C5 (amended): for every non-empty stored representation that fails to
decode, `getHistory` returns the empty history, clears the corrupt record
(an immediate reload also yields the empty history), and, being total,
never propagates the decode error.  (An empty-string record also fails to
decode but is treated as absence: the empty history is returned without
clearing; see the counterexample.) -/
theorem c5_corrupt_history_selfheal (ls : LocalStorage) (s : List Char)
    (hs : lsGet ls chatKey = some s) (hne : s ≠ [])
    (hbad : jsonParse s = none) :
    getHistory ls = (Json.arr [], clearHistory ls)
    ∧ lsGet (clearHistory ls) chatKey = none
    ∧ getHistory (clearHistory ls) = (Json.arr [], clearHistory ls) := by
  have h1 : getHistory ls = (Json.arr [], clearHistory ls) := by
    unfold getHistory
    rw [hs]
    simp [hne, hbad]
  refine ⟨h1, lsGet_clearHistory ls, ?_⟩
  unfold getHistory
  rw [lsGet_clearHistory ls]

theorem c5_witness :
    getHistory ⟨[(chatKey, ['['])], false⟩ =
      (Json.arr [], clearHistory ⟨[(chatKey, ['['])], false⟩)
    ∧ lsGet (clearHistory ⟨[(chatKey, ['['])], false⟩) chatKey = none
    ∧ getHistory (clearHistory ⟨[(chatKey, ['['])], false⟩) =
        (Json.arr [], clearHistory ⟨[(chatKey, ['['])], false⟩) :=
  c5_corrupt_history_selfheal ⟨[(chatKey, ['['])], false⟩ ['[']
    rfl (by decide) rfl

/-- C5 (counterexample): an empty-string record is a stored representation
that fails to decode (`JSON.parse('')` throws), yet `getHistory` takes the
falsy-value branch and returns the empty history while leaving the corrupt
record in place — the store is not cleared. -/
theorem c5_counterexample :
    jsonParse [] = none
    ∧ getHistory ⟨[(chatKey, [])], false⟩ =
        (Json.arr [], ⟨[(chatKey, [])], false⟩)
    ∧ lsGet ⟨[(chatKey, [])], false⟩ chatKey = some [] :=
  ⟨rfl, rfl, rfl⟩

/-- C9 (amended): with a failing storage backend, `HistoryStore`'s save
(`StorageManager.saveHistory`) swallows the failure and returns normally
with the store unchanged, while `CredentialStore`'s save
(`StorageManager.saveApiKey`) logs and re-throws a wrapped error
(`Error('无法保存 API Key')`) which its caller `handleSaveApiKey` catches,
returning normally with a failure toast — so the session never crashes. -/
theorem c9_write_failure (ls : LocalStorage) (h : List Msg) (k : List Char)
    (hf : ls.setFails = true) :
    saveHistory ls h = ls
    ∧ saveApiKey ls k = Except.error saveKeyErr
    ∧ handleSaveApiKey ls k =
        (ls, if trimJS k = [] then ToastMsg.invalidKey
          else ToastMsg.saveFailed) := by
  have h1 : lsSet ls chatKey (serializeHistory h) = none := by
    simp [lsSet, hf]
  have h2 : lsSet ls apiKeyKey k = none := by simp [lsSet, hf]
  refine ⟨?_, ?_, ?_⟩
  · unfold saveHistory
    rw [h1]
  · unfold saveApiKey
    rw [h2]
  · unfold handleSaveApiKey
    by_cases ht : trimJS k = []
    · simp [ht]
    · have h3 : saveApiKey ls (trimJS k) = Except.error saveKeyErr := by
        unfold saveApiKey
        rw [show lsSet ls apiKeyKey (trimJS k) = none by simp [lsSet, hf]]
      simp [ht, h3]

theorem c9_witness :
    saveHistory ⟨[], true⟩ [] = ⟨[], true⟩
    ∧ saveApiKey ⟨[], true⟩ (("key2").toList) = Except.error saveKeyErr
    ∧ handleSaveApiKey ⟨[], true⟩ (("key2").toList) =
        (⟨[], true⟩, ToastMsg.saveFailed) :=
  c9_write_failure ⟨[], true⟩ [] (("key2").toList) rfl

/-- C9 (counterexample): `CredentialStore`'s save does not return normally
on a storage failure — `StorageManager.saveApiKey` re-throws. -/
theorem c9_counterexample :
    saveApiKey ⟨[], true⟩ (("k").toList) = Except.error saveKeyErr := rfl

/-- The history after the user message of a submission is pushed. -/
def pushedHistory (st : CtrlState) (input : List Char) : List Msg :=
  st.history ++ [⟨Role.user, trimJS input⟩]

/-- The message sequence handed to the transport: the system prompt
prepended to the pushed history. -/
def sentMsgs (st : CtrlState) (input : List Char) : List Msg :=
  ⟨Role.system, sysPrompt⟩ :: pushedHistory st input

theorem getApiKey_saveHistory (ls : LocalStorage) (h : List Msg) :
    getApiKey (saveHistory ls h) = getApiKey ls := by
  unfold saveHistory lsSet
  by_cases hf : ls.setFails = true
  · simp [hf]
  · simp only [hf, Bool.false_eq_true, if_neg, ite_false]
    unfold getApiKey lsGet
    rw [find_set_other chatKey (serializeHistory h) apiKeyKey (by decide)
      ls.entries]

theorem lsGet_saveHistory_self (ls : LocalStorage) (h : List Msg)
    (hok : ls.setFails = false) :
    lsGet (saveHistory ls h) chatKey = some (serializeHistory h) := by
  unfold saveHistory lsSet
  simp only [hok, Bool.false_eq_true, if_neg, ite_false]
  unfold lsGet
  rw [find_set_self chatKey (serializeHistory h) ls.entries]

theorem getApiKey_removeApiKey (ls : LocalStorage) :
    getApiKey (removeApiKey ls) = none := by
  unfold getApiKey removeApiKey lsRemove lsGet
  simp [find_erase_self]

theorem lsGet_removeApiKey_chat (ls : LocalStorage) :
    lsGet (removeApiKey ls) chatKey = lsGet ls chatKey := by
  unfold removeApiKey lsRemove lsGet
  rw [find_erase_other apiKeyKey chatKey (by decide) ls.entries]

theorem hsm_empty (st : CtrlState) (input : List Char) (resp : Resp)
    (hin : trimJS input = []) :
    handleSendMessage st input resp =
      ⟨st.history, st.storage, .emptyInput, none, []⟩ := by
  unfold handleSendMessage
  simp [hin]

theorem hsm_nokey_none (st : CtrlState) (input : List Char) (resp : Resp)
    (hin : trimJS input ≠ [])
    (hk : getApiKey (saveHistory st.storage (pushedHistory st input)) = none) :
    handleSendMessage st input resp =
      ⟨pushedHistory st input, saveHistory st.storage (pushedHistory st input),
        .genericError noKeyMsg, none, [pushedHistory st input]⟩ := by
  unfold pushedHistory at hk
  unfold handleSendMessage pushedHistory
  simp only [if_neg hin]
  rw [hk]

theorem hsm_nokey_empty (st : CtrlState) (input : List Char) (resp : Resp)
    (hin : trimJS input ≠ [])
    (hk : getApiKey (saveHistory st.storage (pushedHistory st input)) =
      some []) :
    handleSendMessage st input resp =
      ⟨pushedHistory st input, saveHistory st.storage (pushedHistory st input),
        .genericError noKeyMsg, none, [pushedHistory st input]⟩ := by
  unfold pushedHistory at hk
  unfold handleSendMessage pushedHistory
  simp only [if_neg hin]
  rw [hk]
  simp

theorem hsm_auth (st : CtrlState) (input : List Char) (resp : Resp)
    (hin : trimJS input ≠ []) (k : List Char)
    (hk : getApiKey (saveHistory st.storage (pushedHistory st input)) =
      some k) (hkne : k ≠ [])
    (hsend : sendMessage resp = .error err401) :
    handleSendMessage st input resp =
      ⟨pushedHistory st input,
        removeApiKey (saveHistory st.storage (pushedHistory st input)),
        .authFailed, some (sentMsgs st input), [pushedHistory st input]⟩ := by
  unfold pushedHistory at hk
  unfold handleSendMessage sentMsgs pushedHistory
  simp only [if_neg hin]
  rw [hk, hsend]
  simp [hkne]

theorem hsm_generic (st : CtrlState) (input : List Char) (resp : Resp)
    (hin : trimJS input ≠ []) (k : List Char)
    (hk : getApiKey (saveHistory st.storage (pushedHistory st input)) =
      some k) (hkne : k ≠ []) (e : List Char)
    (hsend : sendMessage resp = .error e) (he : e ≠ err401) :
    handleSendMessage st input resp =
      ⟨pushedHistory st input, saveHistory st.storage (pushedHistory st input),
        .genericError e, some (sentMsgs st input),
        [pushedHistory st input]⟩ := by
  unfold pushedHistory at hk
  unfold handleSendMessage sentMsgs pushedHistory
  simp only [if_neg hin]
  rw [hk, hsend]
  simp [hkne, he]

theorem roles_pushed (st : CtrlState) (input : List Char)
    (hsys : ∀ m ∈ st.history, m.role ≠ Role.system) :
    ∀ m ∈ pushedHistory st input,
      m.role = Role.user ∨ m.role = Role.assistant := by
  intro m hm
  rcases List.mem_append.mp hm with h | h
  · have hne := hsys m h
    cases h2 : m.role with
    | system => exact (hne h2).elim
    | user => exact Or.inl rfl
    | assistant => exact Or.inr rfl
  · rw [List.mem_singleton] at h
    subst h
    exact Or.inl rfl

theorem hsm_ok (st : CtrlState) (input : List Char) (resp : Resp)
    (hin : trimJS input ≠ []) (k : List Char)
    (hk : getApiKey (saveHistory st.storage (pushedHistory st input)) =
      some k) (hkne : k ≠ []) (chunks : List (List Char))
    (hsend : sendMessage resp = .ok chunks) :
    handleSendMessage st input resp =
      ⟨pushedHistory st input ++ [⟨Role.assistant, processStream chunks⟩],
        saveHistory (saveHistory st.storage (pushedHistory st input))
          (pushedHistory st input ++
            [⟨Role.assistant, processStream chunks⟩]),
        .completed, some (sentMsgs st input),
        [pushedHistory st input,
          pushedHistory st input ++
            [⟨Role.assistant, processStream chunks⟩]]⟩ := by
  unfold pushedHistory at hk
  unfold handleSendMessage sentMsgs pushedHistory
  simp only [if_neg hin]
  rw [hk, hsend]
  simp [hkne]



/-- C4: on an authentication failure (HTTP 401) for a submitted message,
afterwards the stored credential is absent, the just-sent user message is
the last entry of both the in-memory history and the persisted record, no
assistant message was appended, and the caller-visible outcome is the
distinguished re-authentication signal, distinct from every generic error
signal. -/
theorem c4_auth_failure (st : CtrlState) (input : List Char) (resp : Resp)
    (hin : trimJS input ≠ [])
    (hkey : ∃ k, getApiKey st.storage = some k ∧ k ≠ [])
    (hok : st.storage.setFails = false) (h401 : resp.status = 401) :
    getApiKey (handleSendMessage st input resp).storage = none
    ∧ (handleSendMessage st input resp).history = pushedHistory st input
    ∧ (handleSendMessage st input resp).savedHistories =
        [pushedHistory st input]
    ∧ lsGet (handleSendMessage st input resp).storage chatKey =
        some (serializeHistory (pushedHistory st input))
    ∧ (handleSendMessage st input resp).outcome = Outcome.authFailed
    ∧ ∀ m, (handleSendMessage st input resp).outcome ≠
        Outcome.genericError m := by
  rcases hkey with ⟨k, hk0, hkne⟩
  have hk : getApiKey (saveHistory st.storage (pushedHistory st input)) =
      some k := by
    rw [getApiKey_saveHistory]
    exact hk0
  have hsend : sendMessage resp = .error err401 := by
    simp [sendMessage, h401, show respOk 401 = false from rfl]
  rw [hsm_auth st input resp hin k hk hkne hsend]
  refine ⟨getApiKey_removeApiKey _, rfl, rfl, ?_, rfl, ?_⟩
  · rw [lsGet_removeApiKey_chat, lsGet_saveHistory_self _ _ hok]
  · intro m h
    exact Outcome.noConfusion h

/-- Controller state of the C4 witness. -/
def c4St : CtrlState := ⟨[], ⟨[(apiKeyKey, ("k").toList)], false⟩⟩

/-- Input of the C4 witness. -/
def c4In : List Char := ("hi").toList

/-- A 401 response. -/
def c4Resp : Resp := ⟨401, []⟩

theorem c4_witness :
    getApiKey (handleSendMessage c4St c4In c4Resp).storage = none
    ∧ (handleSendMessage c4St c4In c4Resp).history = pushedHistory c4St c4In
    ∧ (handleSendMessage c4St c4In c4Resp).savedHistories =
        [pushedHistory c4St c4In]
    ∧ lsGet (handleSendMessage c4St c4In c4Resp).storage chatKey =
        some (serializeHistory (pushedHistory c4St c4In))
    ∧ (handleSendMessage c4St c4In c4Resp).outcome = Outcome.authFailed
    ∧ ∀ m, (handleSendMessage c4St c4In c4Resp).outcome ≠
        Outcome.genericError m :=
  c4_auth_failure c4St c4In c4Resp (by decide)
    ⟨("k").toList, rfl, by decide⟩ rfl rfl

/-- C8: starting from a history with no system-role message, every history
value handed to `StorageManager.saveHistory` by `handleSendMessage`
contains only user- and assistant-role messages, while the message
sequence handed to the transport (when a request is issued at all) is the
system prompt prepended to the pushed transcript. -/
theorem c8_no_system_persisted (st : CtrlState) (input : List Char)
    (resp : Resp) (hsys : ∀ m ∈ st.history, m.role ≠ Role.system) :
    (∀ h ∈ (handleSendMessage st input resp).savedHistories, ∀ m ∈ h,
      m.role = Role.user ∨ m.role = Role.assistant)
    ∧ ((handleSendMessage st input resp).sent = none
      ∨ (handleSendMessage st input resp).sent =
          some (sentMsgs st input)) := by
  have hroles := roles_pushed st input hsys
  by_cases hin : trimJS input = []
  · rw [hsm_empty st input resp hin]
    exact ⟨by simp, Or.inl rfl⟩
  · cases hgk : getApiKey (saveHistory st.storage (pushedHistory st input))
      with
    | none =>
      rw [hsm_nokey_none st input resp hin hgk]
      refine ⟨?_, Or.inl rfl⟩
      intro h hh m hm
      rw [List.mem_singleton] at hh
      subst hh
      exact hroles m hm
    | some k =>
      by_cases hke : k = []
      · subst hke
        rw [hsm_nokey_empty st input resp hin hgk]
        refine ⟨?_, Or.inl rfl⟩
        intro h hh m hm
        rw [List.mem_singleton] at hh
        subst hh
        exact hroles m hm
      · cases hsend : sendMessage resp with
        | error e =>
          by_cases he : e = err401
          · subst he
            rw [hsm_auth st input resp hin k hgk hke hsend]
            refine ⟨?_, Or.inr rfl⟩
            intro h hh m hm
            rw [List.mem_singleton] at hh
            subst hh
            exact hroles m hm
          · rw [hsm_generic st input resp hin k hgk hke e hsend he]
            refine ⟨?_, Or.inr rfl⟩
            intro h hh m hm
            rw [List.mem_singleton] at hh
            subst hh
            exact hroles m hm
        | ok chunks =>
          rw [hsm_ok st input resp hin k hgk hke chunks hsend]
          refine ⟨?_, Or.inr rfl⟩
          intro h hh m hm
          rcases List.mem_cons.mp hh with h1 | h1
          · subst h1
            exact hroles m hm
          · rw [List.mem_singleton] at h1
            subst h1
            rcases List.mem_append.mp hm with h2 | h2
            · exact hroles m h2
            · rw [List.mem_singleton] at h2
              subst h2
              exact Or.inr rfl

/-- Controller state of the C8 witness. -/
def c8St : CtrlState := ⟨[], ⟨[(apiKeyKey, ("k").toList)], false⟩⟩

/-- Input of the C8 witness. -/
def c8In : List Char := ("hello").toList

/-- A successful empty-bodied streaming response. -/
def c8Resp : Resp := ⟨200, []⟩

theorem c8_witness :
    (∀ h ∈ (handleSendMessage c8St c8In c8Resp).savedHistories, ∀ m ∈ h,
      m.role = Role.user ∨ m.role = Role.assistant)
    ∧ ((handleSendMessage c8St c8In c8Resp).sent = none
      ∨ (handleSendMessage c8St c8In c8Resp).sent =
          some (sentMsgs c8St c8In)) :=
  c8_no_system_persisted c8St c8In c8Resp (by simp [c8St])

/-- C3 (amended): `handleSendMessage` consults no in-flight-request state,
so a submission made while a previous request is still in the `Sending` or
`Streaming` phase is not rejected: whenever the trimmed input is non-empty
and a credential is stored, it appends the user message to the history,
persists it, and hands the transcript to the transport — a second network
request.  (The UI disables the send button mid-stream, but the Enter-key
path calls the handler regardless.) -/
theorem c3_no_single_request_guard (st : CtrlState) (input : List Char)
    (resp : Resp) (hin : trimJS input ≠ [])
    (hkey : ∃ k, getApiKey st.storage = some k ∧ k ≠ []) :
    (handleSendMessage st input resp).sent = some (sentMsgs st input)
    ∧ (handleSendMessage st input resp).savedHistories ≠ []
    ∧ ∃ rest, (handleSendMessage st input resp).history =
        st.history ++ ⟨Role.user, trimJS input⟩ :: rest := by
  rcases hkey with ⟨k, hk0, hkne⟩
  have hk : getApiKey (saveHistory st.storage (pushedHistory st input)) =
      some k := by
    rw [getApiKey_saveHistory]
    exact hk0
  cases hsend : sendMessage resp with
  | error e =>
    by_cases he : e = err401
    · subst he
      rw [hsm_auth st input resp hin k hk hkne hsend]
      exact ⟨rfl, by simp, [], by simp [pushedHistory]⟩
    · rw [hsm_generic st input resp hin k hk hkne e hsend he]
      exact ⟨rfl, by simp, [], by simp [pushedHistory]⟩
  | ok chunks =>
    rw [hsm_ok st input resp hin k hk hkne chunks hsend]
    exact ⟨rfl, by simp, [⟨Role.assistant, processStream chunks⟩],
      by simp [pushedHistory]⟩

/-- Controller state of the C3 witness. -/
def c3St : CtrlState := ⟨[], ⟨[(apiKeyKey, ("k").toList)], false⟩⟩

/-- Input of the C3 witness. -/
def c3In : List Char := ("again").toList

/-- A successful empty-bodied streaming response. -/
def c3Resp : Resp := ⟨200, []⟩

theorem c3_witness :
    (handleSendMessage c3St c3In c3Resp).sent = some (sentMsgs c3St c3In)
    ∧ (handleSendMessage c3St c3In c3Resp).savedHistories ≠ []
    ∧ ∃ rest, (handleSendMessage c3St c3In c3Resp).history =
        c3St.history ++ ⟨Role.user, trimJS c3In⟩ :: rest :=
  c3_no_single_request_guard c3St c3In c3Resp (by decide)
    ⟨("k").toList, rfl, by decide⟩

/-- C3 (counterexample): this state is exactly the controller state while a
previous submission is mid-stream (its user message `q1` pushed and
persisted, no assistant reply yet, newly typed input `hi`); invoking
`handleSendMessage` on it is not rejected — it mutates the history, writes
to storage, and issues a network request. -/
theorem c3_counterexample :
    (handleSendMessage
        ⟨[⟨Role.user, ("q1").toList⟩], ⟨[(apiKeyKey, ("k").toList)], false⟩⟩
        (("hi").toList) ⟨200, []⟩).history ≠ [⟨Role.user, ("q1").toList⟩]
    ∧ (handleSendMessage
        ⟨[⟨Role.user, ("q1").toList⟩], ⟨[(apiKeyKey, ("k").toList)], false⟩⟩
        (("hi").toList) ⟨200, []⟩).sent ≠ none
    ∧ (handleSendMessage
        ⟨[⟨Role.user, ("q1").toList⟩], ⟨[(apiKeyKey, ("k").toList)], false⟩⟩
        (("hi").toList) ⟨200, []⟩).savedHistories ≠ [] := by
  refine ⟨?_, ?_, ?_⟩ <;> decide
